import Mathlib

/-!
Shallow embedding of src/firewall_log_analyzer.py.

The program parses firewall log lines with the Python regular expression

  SRC=(?P<src_ip>\S+) DST=(?P<dst_ip>\S+) PROTO=(?P<protocol>\S+)
  SPT=(?P<src_port>\d+) DPT=(?P<dst_port>\d+) ACTION=(?P<action>\S+)

applied with re.search to line.strip(), aggregates the parsed records over
the lines of a file (analyze_logs), and filters the resulting collection
for BLOCKED actions (main, line 86).

Strings are modelled as List Char.  The regular-expression engine is
modelled faithfully: literal matching, greedy one-or-more character-class
matching with backtracking (continuation-passing style), and re.search as
the scan over successive start positions, leftmost first.
-/

/-- Conversion from a Lean string literal to the List Char representation
used throughout this development. -/
def chars (s : String) : List Char := s.data

/-- Python whitespace test (ASCII fragment), as used by str.strip and by
the regex class \s; \S is its complement. -/
def pyIsSpace (c : Char) : Bool :=
  c = ' ' || c = '\t' || c = '\n' || c = '\r' || c = '\x0b' || c = '\x0c'

/-- Complement of pyIsSpace: the regex character class \S. -/
def nonSpace (c : Char) : Bool := !(pyIsSpace c)

/-- Decimal digit test: the regex character class \d (ASCII fragment). -/
def pyIsDigit (c : Char) : Bool := '0' ≤ c && c ≤ '9'

/-- Python str.strip(): remove leading and trailing whitespace. -/
def pyStrip (cs : List Char) : List Char :=
  ((cs.dropWhile pyIsSpace).reverse.dropWhile pyIsSpace).reverse

/-- One parsed firewall event: the dictionary returned by
parse_log_line via match.groupdict(), with the six named groups. -/
structure LogRecord where
  src_ip : List Char
  dst_ip : List Char
  protocol : List Char
  src_port : List Char
  dst_port : List Char
  action : List Char
deriving DecidableEq, Repr

/-- Matching a literal run of characters (the fixed parts of the regex,
such as SRC= and the single spaces between tokens), in continuation-passing
style: on success the continuation receives the rest of the input. -/
def litMatch (lit : List Char) (cs : List Char) (k : List Char → Option LogRecord) :
    Option LogRecord :=
  match lit, cs with
  | [], rest => k rest
  | _ :: _, [] => none
  | a :: ls, c :: rest => if c = a then litMatch ls rest k else none

/-- Greedy zero-or-more matching of a character class with backtracking,
exactly as a backtracking regex engine behaves: first try to extend the
match, and only if the whole extended continuation fails, retry with the
match stopping here.  The continuation receives the captured characters
and the rest of the input. -/
def starMatch (p : Char → Bool) (cs : List Char)
    (k : List Char → List Char → Option LogRecord) : Option LogRecord :=
  match cs with
  | [] => k [] []
  | c :: rest =>
    if p c then
      match starMatch p rest (fun cap rst => k (c :: cap) rst) with
      | some v => some v
      | none => k [] (c :: rest)
    else k [] (c :: rest)

/-- Greedy one-or-more matching of a character class with backtracking:
the regex quantifier + applied to a class such as \S or \d. -/
def plusMatch (p : Char → Bool) (cs : List Char)
    (k : List Char → List Char → Option LogRecord) : Option LogRecord :=
  match cs with
  | [] => none
  | c :: rest =>
    if p c then starMatch p rest (fun cap rst => k (c :: cap) rst) else none

/-- Stage ACTION=(?P<action>\S+), the last piece of the pattern: capture
the action and build the record from all six groups. -/
def actionTail (v1 v2 v3 p1 p2 : List Char) (cs : List Char) : Option LogRecord :=
  plusMatch nonSpace cs fun v6 _ => some ⟨v1, v2, v3, p1, p2, v6⟩

/-- Literal piece " ACTION=" of the pattern, then the action group. -/
def actionLit (v1 v2 v3 p1 p2 : List Char) (cs : List Char) : Option LogRecord :=
  litMatch (chars " ACTION=") cs (actionTail v1 v2 v3 p1 p2)

/-- Group (?P<dst_port>\d+) of the pattern, then the rest. -/
def dptTail (v1 v2 v3 p1 : List Char) (cs : List Char) : Option LogRecord :=
  plusMatch pyIsDigit cs fun p2 cs' => actionLit v1 v2 v3 p1 p2 cs'

/-- Literal piece " DPT=" of the pattern, then the rest. -/
def dptLit (v1 v2 v3 p1 : List Char) (cs : List Char) : Option LogRecord :=
  litMatch (chars " DPT=") cs (dptTail v1 v2 v3 p1)

/-- Group (?P<src_port>\d+) of the pattern, then the rest. -/
def sptTail (v1 v2 v3 : List Char) (cs : List Char) : Option LogRecord :=
  plusMatch pyIsDigit cs fun p1 cs' => dptLit v1 v2 v3 p1 cs'

/-- Literal piece " SPT=" of the pattern, then the rest. -/
def sptLit (v1 v2 v3 : List Char) (cs : List Char) : Option LogRecord :=
  litMatch (chars " SPT=") cs (sptTail v1 v2 v3)

/-- Group (?P<protocol>\S+) of the pattern, then the rest. -/
def protoTail (v1 v2 : List Char) (cs : List Char) : Option LogRecord :=
  plusMatch nonSpace cs fun v3 cs' => sptLit v1 v2 v3 cs'

/-- Literal piece " PROTO=" of the pattern, then the rest. -/
def protoLit (v1 v2 : List Char) (cs : List Char) : Option LogRecord :=
  litMatch (chars " PROTO=") cs (protoTail v1 v2)

/-- Group (?P<dst_ip>\S+) of the pattern, then the rest. -/
def dstTail (v1 : List Char) (cs : List Char) : Option LogRecord :=
  plusMatch nonSpace cs fun v2 cs' => protoLit v1 v2 cs'

/-- Literal piece " DST=" of the pattern, then the rest. -/
def dstLit (v1 : List Char) (cs : List Char) : Option LogRecord :=
  litMatch (chars " DST=") cs (dstTail v1)

/-- Group (?P<src_ip>\S+) of the pattern, then the rest. -/
def srcTail (cs : List Char) : Option LogRecord :=
  plusMatch nonSpace cs fun v1 cs' => dstLit v1 cs'

/-- Attempt to match the full log_pattern of parse_log_line at the start
of the given character list: the literal SRC= followed by the staged rest
of the pattern.  This is the anchored-at-one-position match; re.search
scans it over all start positions. -/
def matchAt (cs : List Char) : Option LogRecord :=
  litMatch (chars "SRC=") cs srcTail

/-- The re.search behaviour: try the pattern at every start position of
the input, leftmost first (including the empty position at the end), and
return the first successful match. -/
def reSearch (cs : List Char) : Option LogRecord :=
  match cs with
  | [] => matchAt []
  | c :: rest =>
    match matchAt (c :: rest) with
    | some r => some r
    | none => reSearch rest

/-- parse_log_line: strip the line, search for the pattern anywhere in it,
and return the captured groups as a record, or none when nothing matches
(the print calls in the source are diagnostic side channels and carry no
data, so they are not modelled). -/
def parse_log_line (line : List Char) : Option LogRecord :=
  reSearch (pyStrip line)

/-- The aggregation loop of analyze_logs (lines 49 to 57): iterate the
lines in order, parse each, and append every successful parse to the
accumulator list parsed_data. -/
def analyzeLogsLoop (acc : List LogRecord) : List (List Char) → List LogRecord
  | [] => acc
  | l :: ls =>
    match parse_log_line l with
    | some r => analyzeLogsLoop (acc ++ [r]) ls
    | none => analyzeLogsLoop acc ls

/-- analyze_logs: the source of lines is either unavailable (the
FileNotFoundError branch, modelled as none) or a list of lines.  On an
unavailable source return None; otherwise run the aggregation loop and
return the collection when it is nonempty, or None when no line parsed
(the Python truthiness test if parsed_data at line 63; the DataFrame
conversion is the identity on the ordered record collection). -/
def analyze_logs (source : Option (List (List Char))) : Option (List LogRecord) :=
  match source with
  | none => none
  | some lines =>
    let parsed := analyzeLogsLoop [] lines
    if parsed = [] then none else some parsed

/-- Names of the six record fields, for the filter operation. -/
inductive FieldName where
  | src_ip | dst_ip | protocol | src_port | dst_port | action
deriving DecidableEq, Repr

/-- Field projection by name. -/
def getField (r : LogRecord) : FieldName → List Char
  | .src_ip => r.src_ip
  | .dst_ip => r.dst_ip
  | .protocol => r.protocol
  | .src_port => r.src_port
  | .dst_port => r.dst_port
  | .action => r.action

/-- Modelled from the spec: the companion operation filterByField of the
Log Aggregator, an exact-equality selection over a collection.  The source
implements only its instance at field action and value BLOCKED, as the
pandas boolean-mask selection at line 86; the general field and value
parameters are taken from the spec wording. -/
def filterByField (c : List LogRecord) (f : FieldName) (v : List Char) :
    List LogRecord :=
  c.filter (fun r => getField r f == v)

/-- The pandas row-wise equality comparison log_data[field] == value of
line 86: one Boolean per record, in order. -/
def boolMask (c : List LogRecord) (f : FieldName) (v : List Char) : List Bool :=
  c.map (fun r => getField r f == v)

/-- The pandas boolean-mask row selection df[mask] of line 86: keep the
rows whose mask entry is true, in order. -/
def maskSelect : List LogRecord → List Bool → List LogRecord
  | [], _ => []
  | _ :: _, [] => []
  | r :: rs, b :: bs => if b then r :: maskSelect rs bs else maskSelect rs bs

/-- The state of main around line 86: the aggregated collection bound to
log_data, and the result slot for blocked_traffic. -/
structure MainState where
  log_data : List LogRecord
  blocked_traffic : Option (List LogRecord)
deriving DecidableEq

/-- Line 86 of main as a state transformation: compute
log_data[log_data[action] == BLOCKED] into blocked_traffic, leaving the
log_data binding as it was. -/
def filterStep (s : MainState) : MainState :=
  { log_data := s.log_data,
    blocked_traffic :=
      some (maskSelect s.log_data (boolMask s.log_data .action (chars "BLOCKED"))) }

/-- The literal skeleton of the pattern assembled around six field values:
the exact character sequence the regex recognises. -/
def patCore (v1 v2 v3 p1 p2 v6 : List Char) : List Char :=
  chars "SRC=" ++ v1 ++ chars " DST=" ++ v2 ++ chars " PROTO=" ++ v3 ++
  chars " SPT=" ++ p1 ++ chars " DPT=" ++ p2 ++ chars " ACTION=" ++ v6

/-- The pattern skeleton around the six fields of a record. -/
def patOf (r : LogRecord) : List Char :=
  patCore r.src_ip r.dst_ip r.protocol r.src_port r.dst_port r.action

/-- Well-formedness of the six captured fields: each is nonempty, the four
token fields contain no whitespace, and the two port fields are all
digits. -/
def fieldsOK (r : LogRecord) : Prop :=
  (r.src_ip ≠ [] ∧ ∀ c ∈ r.src_ip, nonSpace c = true) ∧
  (r.dst_ip ≠ [] ∧ ∀ c ∈ r.dst_ip, nonSpace c = true) ∧
  (r.protocol ≠ [] ∧ ∀ c ∈ r.protocol, nonSpace c = true) ∧
  (r.src_port ≠ [] ∧ ∀ c ∈ r.src_port, pyIsDigit c = true) ∧
  (r.dst_port ≠ [] ∧ ∀ c ∈ r.dst_port, pyIsDigit c = true) ∧
  (r.action ≠ [] ∧ ∀ c ∈ r.action, nonSpace c = true)

instance : DecidablePred fieldsOK := by
  intro r
  unfold fieldsOK
  infer_instance

/-! Basic lemmas about the matcher building blocks. -/

theorem litMatch_append (lit rest : List Char) (k : List Char → Option LogRecord) :
    litMatch lit (lit ++ rest) k = k rest := by
  induction lit with
  | nil => rfl
  | cons a ls ih => simp [litMatch, ih]

theorem litMatch_sound (lit : List Char) :
    ∀ (cs : List Char) (k : List Char → Option LogRecord) (r : LogRecord),
      litMatch lit cs k = some r → ∃ rest, cs = lit ++ rest ∧ k rest = some r := by
  induction lit with
  | nil => intro cs k r h; exact ⟨cs, rfl, h⟩
  | cons a ls ih =>
    intro cs k r h
    cases cs with
    | nil => simp [litMatch] at h
    | cons c cs' =>
      by_cases hca : c = a
      · subst hca
        simp only [litMatch, if_pos rfl] at h
        obtain ⟨rest, hcs, hk⟩ := ih cs' k r h
        exact ⟨rest, by simp [hcs], hk⟩
      · simp [litMatch, hca] at h

theorem lit_space_barrier (p : Char → Bool) (hp : p ' ' = false)
    (lit : List Char) (K : List Char → Option LogRecord)
    (c : Char) (rest : List Char) (hc : p c = true) :
    litMatch (' ' :: lit) (c :: rest) K = none := by
  have hcne : c ≠ ' ' := by
    rintro rfl
    rw [hp] at hc
    cases hc
  simp [litMatch, hcne]

theorem starMatch_barrier (p : Char → Bool) (cs : List Char) :
    ∀ (k : List Char → List Char → Option LogRecord),
      (∀ cap c rest, p c = true → k cap (c :: rest) = none) →
      starMatch p cs k = k (cs.takeWhile p) (cs.dropWhile p) := by
  induction cs with
  | nil => intro k hk; simp [starMatch]
  | cons c cs ih =>
    intro k hk
    by_cases hc : p c
    · have ih' : starMatch p cs (fun cap rst => k (c :: cap) rst) =
          k (c :: cs.takeWhile p) (cs.dropWhile p) :=
        ih (fun cap rst => k (c :: cap) rst)
          (fun cap d rest hd => hk (c :: cap) d rest hd)
      rw [List.takeWhile_cons_of_pos hc, List.dropWhile_cons_of_pos hc]
      simp only [starMatch, hc, if_true]
      rw [ih']
      cases hkv : k (c :: cs.takeWhile p) (cs.dropWhile p) with
      | some v => rfl
      | none => exact hk [] c cs hc
    · rw [List.takeWhile_cons_of_neg hc, List.dropWhile_cons_of_neg hc]
      simp [starMatch, hc]

theorem starMatch_total (p : Char → Bool) (cs : List Char) :
    ∀ (k : List Char → List Char → Option LogRecord),
      (∀ cap rest, k cap rest ≠ none) →
      starMatch p cs k = k (cs.takeWhile p) (cs.dropWhile p) := by
  induction cs with
  | nil => intro k hk; simp [starMatch]
  | cons c cs ih =>
    intro k hk
    by_cases hc : p c
    · have ih' : starMatch p cs (fun cap rst => k (c :: cap) rst) =
          k (c :: cs.takeWhile p) (cs.dropWhile p) :=
        ih (fun cap rst => k (c :: cap) rst) (fun cap rst => hk (c :: cap) rst)
      rw [List.takeWhile_cons_of_pos hc, List.dropWhile_cons_of_pos hc]
      simp only [starMatch, hc, if_true]
      rw [ih']
      cases hkv : k (c :: cs.takeWhile p) (cs.dropWhile p) with
      | some v => rfl
      | none => exact absurd hkv (hk _ _)
    · rw [List.takeWhile_cons_of_neg hc, List.dropWhile_cons_of_neg hc]
      simp [starMatch, hc]

theorem starMatch_sound (p : Char → Bool) (cs : List Char) :
    ∀ (k : List Char → List Char → Option LogRecord) (r : LogRecord),
      starMatch p cs k = some r →
      ∃ cap rest, cs = cap ++ rest ∧ (∀ c ∈ cap, p c = true) ∧ k cap rest = some r := by
  induction cs with
  | nil =>
    intro k r h
    exact ⟨[], [], rfl, by simp, by simpa [starMatch] using h⟩
  | cons c cs ih =>
    intro k r h
    by_cases hc : p c
    · simp only [starMatch, hc, if_true] at h
      cases hsv : starMatch p cs (fun cap rst => k (c :: cap) rst) with
      | some v =>
        rw [hsv] at h
        obtain ⟨cap, rest, hcs, hall, hkr⟩ := ih _ v hsv
        cases h
        refine ⟨c :: cap, rest, by simp [hcs], ?_, hkr⟩
        intro d hd
        rcases List.mem_cons.mp hd with hd | hd
        · subst hd; exact hc
        · exact hall d hd
      | none =>
        rw [hsv] at h
        exact ⟨[], c :: cs, rfl, by simp, h⟩
    · simp only [starMatch, hc, if_false] at h
      exact ⟨[], c :: cs, rfl, by simp, h⟩

theorem plusMatch_sound (p : Char → Bool) (cs : List Char)
    (k : List Char → List Char → Option LogRecord) (r : LogRecord)
    (h : plusMatch p cs k = some r) :
    ∃ cap rest, cs = cap ++ rest ∧ cap ≠ [] ∧ (∀ c ∈ cap, p c = true) ∧
      k cap rest = some r := by
  cases cs with
  | nil => simp [plusMatch] at h
  | cons c cs' =>
    by_cases hc : p c
    · simp only [plusMatch, hc, if_true] at h
      obtain ⟨cap, rest, hcs, hall, hkr⟩ := starMatch_sound p cs' _ r h
      refine ⟨c :: cap, rest, by simp [hcs], by simp, ?_, hkr⟩
      intro d hd
      rcases List.mem_cons.mp hd with hd | hd
      · subst hd; exact hc
      · exact hall d hd
    · simp [plusMatch, hc] at h

theorem plusMatch_barrier (p : Char → Bool)
    (k : List Char → List Char → Option LogRecord)
    (hk : ∀ cap c rest, p c = true → k cap (c :: rest) = none)
    (xs ys : List Char) (hxs : xs ≠ []) (hall : ∀ c ∈ xs, p c = true)
    (hys : ys = [] ∨ ∃ d ds, ys = d :: ds ∧ p d = false) :
    plusMatch p (xs ++ ys) k = k xs ys := by
  cases xs with
  | nil => exact absurd rfl hxs
  | cons x xs' =>
    have hx : p x = true := hall x (by simp)
    have hall' : ∀ c ∈ xs', p c = true := fun c hc => hall c (by simp [hc])
    simp only [List.cons_append, plusMatch, hx, if_true]
    rw [starMatch_barrier p _ _ (fun cap d rest hd => hk (x :: cap) d rest hd)]
    have htw : (xs' ++ ys).takeWhile p = xs' := by
      rw [List.takeWhile_append_of_pos hall']
      rcases hys with rfl | ⟨d, ds, rfl, hd⟩
      · simp
      · simp [List.takeWhile_cons_of_neg, hd]
    have hdw : (xs' ++ ys).dropWhile p = ys := by
      rw [List.dropWhile_append_of_pos hall']
      rcases hys with rfl | ⟨d, ds, rfl, hd⟩
      · simp
      · simp [List.dropWhile_cons_of_neg, hd]
    rw [htw, hdw]

theorem plusMatch_total (p : Char → Bool)
    (k : List Char → List Char → Option LogRecord)
    (hk : ∀ cap rest, k cap rest ≠ none)
    (c : Char) (cs : List Char) (hc : p c = true) :
    plusMatch p (c :: cs) k = k (c :: cs.takeWhile p) (cs.dropWhile p) := by
  simp only [plusMatch, hc, if_true]
  rw [starMatch_total p _ _ (fun cap rst => hk (c :: cap) rst)]

/-! Head shapes of the literal pattern pieces. -/

theorem headDST : chars " DST=" = ' ' :: chars "DST=" := rfl

theorem headPROTO : chars " PROTO=" = ' ' :: chars "PROTO=" := rfl

theorem headSPT : chars " SPT=" = ' ' :: chars "SPT=" := rfl

theorem headDPT : chars " DPT=" = ' ' :: chars "DPT=" := rfl

theorem headACTION : chars " ACTION=" = ' ' :: chars "ACTION=" := rfl

/-! Barrier lemmas: each literal pattern piece begins with a space, so a
stage starting at a character of the preceding group's class fails.  This
is why greedy backtracking cannot cut a group short: every shorter
candidate leaves a class character where the space is required. -/

theorem dstLit_barrier (cap : List Char) (c : Char) (rest : List Char)
    (hc : nonSpace c = true) : dstLit cap (c :: rest) = none := by
  rw [dstLit, headDST]
  exact lit_space_barrier nonSpace (by decide) _ _ c rest hc

theorem protoLit_barrier (v1 cap : List Char) (c : Char) (rest : List Char)
    (hc : nonSpace c = true) : protoLit v1 cap (c :: rest) = none := by
  rw [protoLit, headPROTO]
  exact lit_space_barrier nonSpace (by decide) _ _ c rest hc

theorem sptLit_barrier (v1 v2 cap : List Char) (c : Char) (rest : List Char)
    (hc : nonSpace c = true) : sptLit v1 v2 cap (c :: rest) = none := by
  rw [sptLit, headSPT]
  exact lit_space_barrier nonSpace (by decide) _ _ c rest hc

theorem dptLit_barrier (v1 v2 v3 cap : List Char) (c : Char) (rest : List Char)
    (hc : pyIsDigit c = true) : dptLit v1 v2 v3 cap (c :: rest) = none := by
  rw [dptLit, headDPT]
  exact lit_space_barrier pyIsDigit (by decide) _ _ c rest hc

theorem actionLit_barrier (v1 v2 v3 p1 cap : List Char) (c : Char) (rest : List Char)
    (hc : pyIsDigit c = true) : actionLit v1 v2 v3 p1 cap (c :: rest) = none := by
  rw [actionLit, headACTION]
  exact lit_space_barrier pyIsDigit (by decide) _ _ c rest hc

/-! Completeness of the match at a well-formed occurrence, stage by stage,
from the last pattern piece back to the first. -/

theorem actionTail_complete (v1 v2 v3 p1 p2 v6 rest : List Char)
    (h6 : v6 ≠ []) (h6' : ∀ c ∈ v6, nonSpace c = true) :
    actionTail v1 v2 v3 p1 p2 (v6 ++ rest) =
      some ⟨v1, v2, v3, p1, p2, v6 ++ rest.takeWhile nonSpace⟩ := by
  cases v6 with
  | nil => exact absurd rfl h6
  | cons c v6' =>
    have hc : nonSpace c = true := h6' c (by simp)
    have h6'' : ∀ d ∈ v6', nonSpace d = true := fun d hd => h6' d (by simp [hd])
    simp only [actionTail, List.cons_append]
    rw [plusMatch_total nonSpace _ (fun cap rst => by simp) c (v6' ++ rest) hc]
    rw [List.takeWhile_append_of_pos h6'']

theorem actionLit_complete (v1 v2 v3 p1 p2 v6 rest : List Char)
    (h6 : v6 ≠ []) (h6' : ∀ c ∈ v6, nonSpace c = true) :
    actionLit v1 v2 v3 p1 p2 (chars " ACTION=" ++ (v6 ++ rest)) =
      some ⟨v1, v2, v3, p1, p2, v6 ++ rest.takeWhile nonSpace⟩ := by
  rw [actionLit, litMatch_append]
  exact actionTail_complete v1 v2 v3 p1 p2 v6 rest h6 h6'

theorem dptTail_complete (v1 v2 v3 p1 p2 v6 rest : List Char)
    (h5 : p2 ≠ []) (h5' : ∀ c ∈ p2, pyIsDigit c = true)
    (h6 : v6 ≠ []) (h6' : ∀ c ∈ v6, nonSpace c = true) :
    dptTail v1 v2 v3 p1 (p2 ++ (chars " ACTION=" ++ (v6 ++ rest))) =
      some ⟨v1, v2, v3, p1, p2, v6 ++ rest.takeWhile nonSpace⟩ := by
  simp only [dptTail]
  refine (plusMatch_barrier pyIsDigit _
    (fun cap c rst hc => actionLit_barrier v1 v2 v3 p1 cap c rst hc)
    p2 _ h5 h5'
    (Or.inr ⟨' ', chars "ACTION=" ++ (v6 ++ rest), by rw [headACTION]; rfl, by decide⟩)).trans ?_
  exact actionLit_complete v1 v2 v3 p1 p2 v6 rest h6 h6'

theorem dptLit_complete (v1 v2 v3 p1 p2 v6 rest : List Char)
    (h5 : p2 ≠ []) (h5' : ∀ c ∈ p2, pyIsDigit c = true)
    (h6 : v6 ≠ []) (h6' : ∀ c ∈ v6, nonSpace c = true) :
    dptLit v1 v2 v3 p1 (chars " DPT=" ++ (p2 ++ (chars " ACTION=" ++ (v6 ++ rest)))) =
      some ⟨v1, v2, v3, p1, p2, v6 ++ rest.takeWhile nonSpace⟩ := by
  rw [dptLit, litMatch_append]
  exact dptTail_complete v1 v2 v3 p1 p2 v6 rest h5 h5' h6 h6'

theorem sptTail_complete (v1 v2 v3 p1 p2 v6 rest : List Char)
    (h4 : p1 ≠ []) (h4' : ∀ c ∈ p1, pyIsDigit c = true)
    (h5 : p2 ≠ []) (h5' : ∀ c ∈ p2, pyIsDigit c = true)
    (h6 : v6 ≠ []) (h6' : ∀ c ∈ v6, nonSpace c = true) :
    sptTail v1 v2 v3 (p1 ++ (chars " DPT=" ++ (p2 ++ (chars " ACTION=" ++ (v6 ++ rest))))) =
      some ⟨v1, v2, v3, p1, p2, v6 ++ rest.takeWhile nonSpace⟩ := by
  simp only [sptTail]
  refine (plusMatch_barrier pyIsDigit _
    (fun cap c rst hc => dptLit_barrier v1 v2 v3 cap c rst hc)
    p1 _ h4 h4'
    (Or.inr ⟨' ', chars "DPT=" ++ (p2 ++ (chars " ACTION=" ++ (v6 ++ rest))),
      by rw [headDPT]; rfl, by decide⟩)).trans ?_
  exact dptLit_complete v1 v2 v3 p1 p2 v6 rest h5 h5' h6 h6'

theorem sptLit_complete (v1 v2 v3 p1 p2 v6 rest : List Char)
    (h4 : p1 ≠ []) (h4' : ∀ c ∈ p1, pyIsDigit c = true)
    (h5 : p2 ≠ []) (h5' : ∀ c ∈ p2, pyIsDigit c = true)
    (h6 : v6 ≠ []) (h6' : ∀ c ∈ v6, nonSpace c = true) :
    sptLit v1 v2 v3
      (chars " SPT=" ++ (p1 ++ (chars " DPT=" ++ (p2 ++ (chars " ACTION=" ++ (v6 ++ rest)))))) =
      some ⟨v1, v2, v3, p1, p2, v6 ++ rest.takeWhile nonSpace⟩ := by
  rw [sptLit, litMatch_append]
  exact sptTail_complete v1 v2 v3 p1 p2 v6 rest h4 h4' h5 h5' h6 h6'

theorem protoTail_complete (v1 v2 v3 p1 p2 v6 rest : List Char)
    (h3 : v3 ≠ []) (h3' : ∀ c ∈ v3, nonSpace c = true)
    (h4 : p1 ≠ []) (h4' : ∀ c ∈ p1, pyIsDigit c = true)
    (h5 : p2 ≠ []) (h5' : ∀ c ∈ p2, pyIsDigit c = true)
    (h6 : v6 ≠ []) (h6' : ∀ c ∈ v6, nonSpace c = true) :
    protoTail v1 v2
      (v3 ++ (chars " SPT=" ++ (p1 ++ (chars " DPT=" ++ (p2 ++ (chars " ACTION=" ++ (v6 ++ rest))))))) =
      some ⟨v1, v2, v3, p1, p2, v6 ++ rest.takeWhile nonSpace⟩ := by
  simp only [protoTail]
  refine (plusMatch_barrier nonSpace _
    (fun cap c rst hc => sptLit_barrier v1 v2 cap c rst hc)
    v3 _ h3 h3'
    (Or.inr ⟨' ', chars "SPT=" ++ (p1 ++ (chars " DPT=" ++ (p2 ++ (chars " ACTION=" ++ (v6 ++ rest))))),
      by rw [headSPT]; rfl, by decide⟩)).trans ?_
  exact sptLit_complete v1 v2 v3 p1 p2 v6 rest h4 h4' h5 h5' h6 h6'

theorem protoLit_complete (v1 v2 v3 p1 p2 v6 rest : List Char)
    (h3 : v3 ≠ []) (h3' : ∀ c ∈ v3, nonSpace c = true)
    (h4 : p1 ≠ []) (h4' : ∀ c ∈ p1, pyIsDigit c = true)
    (h5 : p2 ≠ []) (h5' : ∀ c ∈ p2, pyIsDigit c = true)
    (h6 : v6 ≠ []) (h6' : ∀ c ∈ v6, nonSpace c = true) :
    protoLit v1 v2
      (chars " PROTO=" ++ (v3 ++ (chars " SPT=" ++ (p1 ++ (chars " DPT=" ++ (p2 ++ (chars " ACTION=" ++ (v6 ++ rest)))))))) =
      some ⟨v1, v2, v3, p1, p2, v6 ++ rest.takeWhile nonSpace⟩ := by
  rw [protoLit, litMatch_append]
  exact protoTail_complete v1 v2 v3 p1 p2 v6 rest h3 h3' h4 h4' h5 h5' h6 h6'

theorem dstTail_complete (v1 v2 v3 p1 p2 v6 rest : List Char)
    (h2 : v2 ≠ []) (h2' : ∀ c ∈ v2, nonSpace c = true)
    (h3 : v3 ≠ []) (h3' : ∀ c ∈ v3, nonSpace c = true)
    (h4 : p1 ≠ []) (h4' : ∀ c ∈ p1, pyIsDigit c = true)
    (h5 : p2 ≠ []) (h5' : ∀ c ∈ p2, pyIsDigit c = true)
    (h6 : v6 ≠ []) (h6' : ∀ c ∈ v6, nonSpace c = true) :
    dstTail v1
      (v2 ++ (chars " PROTO=" ++ (v3 ++ (chars " SPT=" ++ (p1 ++ (chars " DPT=" ++ (p2 ++ (chars " ACTION=" ++ (v6 ++ rest))))))))) =
      some ⟨v1, v2, v3, p1, p2, v6 ++ rest.takeWhile nonSpace⟩ := by
  simp only [dstTail]
  refine (plusMatch_barrier nonSpace _
    (fun cap c rst hc => protoLit_barrier v1 cap c rst hc)
    v2 _ h2 h2'
    (Or.inr ⟨' ', chars "PROTO=" ++ (v3 ++ (chars " SPT=" ++ (p1 ++ (chars " DPT=" ++ (p2 ++ (chars " ACTION=" ++ (v6 ++ rest))))))),
      by rw [headPROTO]; rfl, by decide⟩)).trans ?_
  exact protoLit_complete v1 v2 v3 p1 p2 v6 rest h3 h3' h4 h4' h5 h5' h6 h6'

theorem dstLit_complete (v1 v2 v3 p1 p2 v6 rest : List Char)
    (h2 : v2 ≠ []) (h2' : ∀ c ∈ v2, nonSpace c = true)
    (h3 : v3 ≠ []) (h3' : ∀ c ∈ v3, nonSpace c = true)
    (h4 : p1 ≠ []) (h4' : ∀ c ∈ p1, pyIsDigit c = true)
    (h5 : p2 ≠ []) (h5' : ∀ c ∈ p2, pyIsDigit c = true)
    (h6 : v6 ≠ []) (h6' : ∀ c ∈ v6, nonSpace c = true) :
    dstLit v1
      (chars " DST=" ++ (v2 ++ (chars " PROTO=" ++ (v3 ++ (chars " SPT=" ++ (p1 ++ (chars " DPT=" ++ (p2 ++ (chars " ACTION=" ++ (v6 ++ rest)))))))))) =
      some ⟨v1, v2, v3, p1, p2, v6 ++ rest.takeWhile nonSpace⟩ := by
  rw [dstLit, litMatch_append]
  exact dstTail_complete v1 v2 v3 p1 p2 v6 rest h2 h2' h3 h3' h4 h4' h5 h5' h6 h6'

theorem srcTail_complete (v1 v2 v3 p1 p2 v6 rest : List Char)
    (h1 : v1 ≠ []) (h1' : ∀ c ∈ v1, nonSpace c = true)
    (h2 : v2 ≠ []) (h2' : ∀ c ∈ v2, nonSpace c = true)
    (h3 : v3 ≠ []) (h3' : ∀ c ∈ v3, nonSpace c = true)
    (h4 : p1 ≠ []) (h4' : ∀ c ∈ p1, pyIsDigit c = true)
    (h5 : p2 ≠ []) (h5' : ∀ c ∈ p2, pyIsDigit c = true)
    (h6 : v6 ≠ []) (h6' : ∀ c ∈ v6, nonSpace c = true) :
    srcTail
      (v1 ++ (chars " DST=" ++ (v2 ++ (chars " PROTO=" ++ (v3 ++ (chars " SPT=" ++ (p1 ++ (chars " DPT=" ++ (p2 ++ (chars " ACTION=" ++ (v6 ++ rest))))))))))) =
      some ⟨v1, v2, v3, p1, p2, v6 ++ rest.takeWhile nonSpace⟩ := by
  simp only [srcTail]
  refine (plusMatch_barrier nonSpace _
    (fun cap c rst hc => dstLit_barrier cap c rst hc)
    v1 _ h1 h1'
    (Or.inr ⟨' ', chars "DST=" ++ (v2 ++ (chars " PROTO=" ++ (v3 ++ (chars " SPT=" ++ (p1 ++ (chars " DPT=" ++ (p2 ++ (chars " ACTION=" ++ (v6 ++ rest))))))))),
      by rw [headDST]; rfl, by decide⟩)).trans ?_
  exact dstLit_complete v1 v2 v3 p1 p2 v6 rest h2 h2' h3 h3' h4 h4' h5 h5' h6 h6'

theorem matchAt_complete (v1 v2 v3 p1 p2 v6 rest : List Char)
    (h1 : v1 ≠ []) (h1' : ∀ c ∈ v1, nonSpace c = true)
    (h2 : v2 ≠ []) (h2' : ∀ c ∈ v2, nonSpace c = true)
    (h3 : v3 ≠ []) (h3' : ∀ c ∈ v3, nonSpace c = true)
    (h4 : p1 ≠ []) (h4' : ∀ c ∈ p1, pyIsDigit c = true)
    (h5 : p2 ≠ []) (h5' : ∀ c ∈ p2, pyIsDigit c = true)
    (h6 : v6 ≠ []) (h6' : ∀ c ∈ v6, nonSpace c = true) :
    matchAt (patCore v1 v2 v3 p1 p2 v6 ++ rest) =
      some ⟨v1, v2, v3, p1, p2, v6 ++ rest.takeWhile nonSpace⟩ := by
  have hform : patCore v1 v2 v3 p1 p2 v6 ++ rest =
      chars "SRC=" ++ (v1 ++ (chars " DST=" ++ (v2 ++ (chars " PROTO=" ++ (v3 ++ (chars " SPT=" ++ (p1 ++ (chars " DPT=" ++ (p2 ++ (chars " ACTION=" ++ (v6 ++ rest))))))))))) := by
    simp [patCore, List.append_assoc]
  rw [hform, matchAt, litMatch_append]
  exact srcTail_complete v1 v2 v3 p1 p2 v6 rest h1 h1' h2 h2' h3 h3' h4 h4' h5 h5' h6 h6'

/-! Soundness of the match: any successful match decomposes the input as
the literal pattern skeleton around six captured fields of the right
character classes. -/

theorem matchAt_sound (cs : List Char) (r : LogRecord) (h : matchAt cs = some r) :
    ∃ rest, cs = patOf r ++ rest ∧ fieldsOK r := by
  rw [matchAt] at h
  obtain ⟨cs1, hcs, h⟩ := litMatch_sound (chars "SRC=") cs srcTail r h
  rw [srcTail] at h
  obtain ⟨v1, cs2, hcs1, h1ne, h1all, h⟩ := plusMatch_sound nonSpace cs1 _ r h
  replace h : dstLit v1 cs2 = some r := h
  rw [dstLit] at h
  obtain ⟨cs3, hcs2, h⟩ := litMatch_sound (chars " DST=") cs2 _ r h
  rw [dstTail] at h
  obtain ⟨v2, cs4, hcs3, h2ne, h2all, h⟩ := plusMatch_sound nonSpace cs3 _ r h
  replace h : protoLit v1 v2 cs4 = some r := h
  rw [protoLit] at h
  obtain ⟨cs5, hcs4, h⟩ := litMatch_sound (chars " PROTO=") cs4 _ r h
  rw [protoTail] at h
  obtain ⟨v3, cs6, hcs5, h3ne, h3all, h⟩ := plusMatch_sound nonSpace cs5 _ r h
  replace h : sptLit v1 v2 v3 cs6 = some r := h
  rw [sptLit] at h
  obtain ⟨cs7, hcs6, h⟩ := litMatch_sound (chars " SPT=") cs6 _ r h
  rw [sptTail] at h
  obtain ⟨p1, cs8, hcs7, h4ne, h4all, h⟩ := plusMatch_sound pyIsDigit cs7 _ r h
  replace h : dptLit v1 v2 v3 p1 cs8 = some r := h
  rw [dptLit] at h
  obtain ⟨cs9, hcs8, h⟩ := litMatch_sound (chars " DPT=") cs8 _ r h
  rw [dptTail] at h
  obtain ⟨p2, cs10, hcs9, h5ne, h5all, h⟩ := plusMatch_sound pyIsDigit cs9 _ r h
  replace h : actionLit v1 v2 v3 p1 p2 cs10 = some r := h
  rw [actionLit] at h
  obtain ⟨cs11, hcs10, h⟩ := litMatch_sound (chars " ACTION=") cs10 _ r h
  rw [actionTail] at h
  obtain ⟨v6, restF, hcs11, h6ne, h6all, h⟩ := plusMatch_sound nonSpace cs11 _ r h
  replace h : (some (⟨v1, v2, v3, p1, p2, v6⟩ : LogRecord) : Option LogRecord) = some r := h
  cases h
  refine ⟨restF, ?_, ?_⟩
  · subst hcs hcs1 hcs2 hcs3 hcs4 hcs5 hcs6 hcs7 hcs8 hcs9 hcs10 hcs11
    simp [patOf, patCore, List.append_assoc]
  · exact ⟨⟨h1ne, h1all⟩, ⟨h2ne, h2all⟩, ⟨h3ne, h3all⟩,
      ⟨h4ne, h4all⟩, ⟨h5ne, h5all⟩, ⟨h6ne, h6all⟩⟩

theorem matchAt_nil : matchAt [] = none := rfl

/-! Lemmas about the position scan of re.search. -/

theorem reSearch_nil : reSearch [] = none := matchAt_nil

theorem reSearch_cons_pos (c : Char) (cs : List Char) (r : LogRecord)
    (h : matchAt (c :: cs) = some r) : reSearch (c :: cs) = some r := by
  rw [reSearch, h]

theorem reSearch_cons_neg (c : Char) (cs : List Char)
    (h : matchAt (c :: cs) = none) : reSearch (c :: cs) = reSearch cs := by
  rw [reSearch, h]

theorem reSearch_sound (cs : List Char) (r : LogRecord) (h : reSearch cs = some r) :
    ∃ A t, cs = A ++ t ∧ matchAt t = some r := by
  induction cs with
  | nil =>
    rw [reSearch_nil] at h
    cases h
  | cons c cs ih =>
    cases hm : matchAt (c :: cs) with
    | some v =>
      rw [reSearch_cons_pos c cs v hm] at h
      cases h
      exact ⟨[], c :: cs, rfl, hm⟩
    | none =>
      rw [reSearch_cons_neg c cs hm] at h
      obtain ⟨A, t, hcs, hm'⟩ := ih h
      exact ⟨c :: A, t, by simp [hcs], hm'⟩

theorem reSearch_complete (A t : List Char) (r : LogRecord) (hm : matchAt t = some r) :
    ∃ r', reSearch (A ++ t) = some r' := by
  induction A with
  | nil =>
    cases t with
    | nil => rw [matchAt_nil] at hm; cases hm
    | cons c t' => exact ⟨r, by rw [List.nil_append]; exact reSearch_cons_pos c t' r hm⟩
  | cons a A ih =>
    obtain ⟨r', hr'⟩ := ih
    cases hM : matchAt (a :: (A ++ t)) with
    | some v => exact ⟨v, by rw [List.cons_append]; exact reSearch_cons_pos _ _ _ hM⟩
    | none =>
      exact ⟨r', by rw [List.cons_append, reSearch_cons_neg _ _ hM]; exact hr'⟩

theorem reSearch_leftmost (i : Nat) :
    ∀ (cs : List Char) (r : LogRecord),
      matchAt (cs.drop i) = some r →
      (∀ j, j < i → matchAt (cs.drop j) = none) →
      reSearch cs = some r := by
  induction i with
  | zero =>
    intro cs r h hmin
    rw [List.drop_zero] at h
    cases cs with
    | nil => rw [matchAt_nil] at h; cases h
    | cons c cs' => exact reSearch_cons_pos c cs' r h
  | succ i ih =>
    intro cs r h hmin
    have h0 : matchAt cs = none := by
      simpa using hmin 0 (Nat.succ_pos i)
    cases cs with
    | nil =>
      rw [List.drop_nil, matchAt_nil] at h
      cases h
    | cons c cs' =>
      rw [reSearch_cons_neg c cs' h0]
      refine ih cs' r ?_ ?_
      · simpa [List.drop_succ_cons] using h
      · intro j hj
        simpa [List.drop_succ_cons] using hmin (j + 1) (Nat.succ_lt_succ hj)

/-! Lemmas about stripping around a whitespace-free block. -/

theorem dropWhile_append_head (p : Char → Bool) (pre : List Char) (c : Char) (t : List Char)
    (hc : p c = false) :
    (pre ++ c :: t).dropWhile p = pre.dropWhile p ++ c :: t := by
  induction pre with
  | nil => simp [List.dropWhile_cons, hc]
  | cons a pre ih =>
    by_cases ha : p a
    · simp [List.dropWhile_cons, ha, ih]
    · simp [List.dropWhile_cons, ha]

theorem pyStrip_decomp (pre post mid : List Char) (c d : Char)
    (hc : pyIsSpace c = false) (hd : pyIsSpace d = false) :
    pyStrip (pre ++ (c :: (mid ++ [d])) ++ post) =
      pre.dropWhile pyIsSpace ++ (c :: (mid ++ [d])) ++
        (post.reverse.dropWhile pyIsSpace).reverse := by
  unfold pyStrip
  have h1 : (pre ++ (c :: (mid ++ [d])) ++ post).dropWhile pyIsSpace
      = pre.dropWhile pyIsSpace ++ (c :: (mid ++ [d] ++ post)) := by
    rw [List.append_assoc, List.cons_append]
    rw [show mid ++ [d] ++ post = mid ++ ([d] ++ post) from List.append_assoc mid [d] post]
    exact dropWhile_append_head pyIsSpace pre c (mid ++ ([d] ++ post)) hc
  rw [h1]
  have h2 : (pre.dropWhile pyIsSpace ++ (c :: (mid ++ [d] ++ post))).reverse
      = post.reverse ++ (d :: (mid.reverse ++ [c] ++ (pre.dropWhile pyIsSpace).reverse)) := by
    simp [List.reverse_append, List.append_assoc]
  rw [h2]
  rw [dropWhile_append_head pyIsSpace post.reverse d _ hd]
  simp [List.reverse_append, List.append_assoc]

theorem headSRC : chars "SRC=" = 'S' :: chars "RC=" := rfl

/-- Soundness of parse_log_line: a returned record always comes from a
well-formed occurrence of the pattern inside the stripped line, and its
six fields are the verbatim captured substrings. -/
theorem parse_sound (line : List Char) (r : LogRecord)
    (h : parse_log_line line = some r) :
    ∃ A B, pyStrip line = A ++ patOf r ++ B ∧ fieldsOK r := by
  rw [parse_log_line] at h
  obtain ⟨A, t, hsplit, hm⟩ := reSearch_sound _ r h
  obtain ⟨rest, ht, hok⟩ := matchAt_sound t r hm
  exact ⟨A, rest, by rw [hsplit, ht, List.append_assoc], hok⟩

/-- Completeness of parse_log_line: a line containing a well-formed
occurrence of the pattern, with arbitrary text around it, parses to some
record. -/
theorem parse_complete (pre post v1 v2 v3 p1 p2 v6 : List Char)
    (h1 : v1 ≠ []) (h1' : ∀ c ∈ v1, nonSpace c = true)
    (h2 : v2 ≠ []) (h2' : ∀ c ∈ v2, nonSpace c = true)
    (h3 : v3 ≠ []) (h3' : ∀ c ∈ v3, nonSpace c = true)
    (h4 : p1 ≠ []) (h4' : ∀ c ∈ p1, pyIsDigit c = true)
    (h5 : p2 ≠ []) (h5' : ∀ c ∈ p2, pyIsDigit c = true)
    (h6 : v6 ≠ []) (h6' : ∀ c ∈ v6, nonSpace c = true) :
    ∃ r, parse_log_line (pre ++ patCore v1 v2 v3 p1 p2 v6 ++ post) = some r := by
  obtain ⟨ys, d, hv6⟩ : ∃ ys d, v6 = ys ++ [d] := by
    rcases List.eq_nil_or_concat v6 with h | ⟨ys, d, h⟩
    · exact absurd h h6
    · exact ⟨ys, d, by simpa [List.concat_eq_append] using h⟩
  have hd : pyIsSpace d = false := by
    have hns : nonSpace d = true := h6' d (by simp [hv6])
    simpa [nonSpace] using hns
  have hshape : patCore v1 v2 v3 p1 p2 v6 =
      'S' :: ((chars "RC=" ++ v1 ++ chars " DST=" ++ v2 ++ chars " PROTO=" ++ v3 ++
        chars " SPT=" ++ p1 ++ chars " DPT=" ++ p2 ++ chars " ACTION=" ++ ys) ++ [d]) := by
    subst hv6
    rw [patCore, headSRC]
    simp [List.append_assoc]
  have hstrip : pyStrip (pre ++ patCore v1 v2 v3 p1 p2 v6 ++ post) =
      pre.dropWhile pyIsSpace ++ patCore v1 v2 v3 p1 p2 v6 ++
        (post.reverse.dropWhile pyIsSpace).reverse := by
    rw [hshape]
    exact pyStrip_decomp pre post _ 'S' d (by decide) hd
  have hmatch := matchAt_complete v1 v2 v3 p1 p2 v6
    ((post.reverse.dropWhile pyIsSpace).reverse)
    h1 h1' h2 h2' h3 h3' h4 h4' h5 h5' h6 h6'
  obtain ⟨r', hr'⟩ := reSearch_complete (pre.dropWhile pyIsSpace)
    (patCore v1 v2 v3 p1 p2 v6 ++ (post.reverse.dropWhile pyIsSpace).reverse) _ hmatch
  refine ⟨r', ?_⟩
  rw [parse_log_line, hstrip, List.append_assoc]
  exact hr'

/-- A well-formed pattern occurrence is at least 40 characters long: 34
literal characters plus at least one character for each of the six
fields. -/
theorem patOf_length_ge (r : LogRecord) (hok : fieldsOK r) : 40 ≤ (patOf r).length := by
  obtain ⟨⟨h1, _⟩, ⟨h2, _⟩, ⟨h3, _⟩, ⟨h4, _⟩, ⟨h5, _⟩, ⟨h6, _⟩⟩ := hok
  have l1 : 1 ≤ r.src_ip.length := List.length_pos.mpr h1
  have l2 : 1 ≤ r.dst_ip.length := List.length_pos.mpr h2
  have l3 : 1 ≤ r.protocol.length := List.length_pos.mpr h3
  have l4 : 1 ≤ r.src_port.length := List.length_pos.mpr h4
  have l5 : 1 ≤ r.dst_port.length := List.length_pos.mpr h5
  have l6 : 1 ≤ r.action.length := List.length_pos.mpr h6
  have : (patOf r).length = 4 + r.src_ip.length + 5 + r.dst_ip.length + 7 +
      r.protocol.length + 5 + r.src_port.length + 5 + r.dst_port.length + 8 +
      r.action.length := by
    simp [patOf, patCore, chars]
    omega
  omega

/-- The aggregation loop is the in-order filterMap of the parser over the
lines, appended to the starting accumulator. -/
theorem analyzeLogsLoop_eq (lines : List (List Char)) :
    ∀ acc, analyzeLogsLoop acc lines = acc ++ lines.filterMap parse_log_line := by
  induction lines with
  | nil => intro acc; simp [analyzeLogsLoop]
  | cons l ls ih =>
    intro acc
    cases hp : parse_log_line l with
    | some r => simp [analyzeLogsLoop, hp, ih, List.filterMap_cons]
    | none => simp [analyzeLogsLoop, hp, ih, List.filterMap_cons]

theorem length_filterMap_countP {α β : Type} (f : α → Option β) (l : List α) :
    (l.filterMap f).length = l.countP (fun a => (f a).isSome) := by
  induction l with
  | nil => rfl
  | cons a l ih => cases h : f a <;> simp [List.filterMap_cons, h, List.countP_cons, ih]

/-- The pandas boolean-mask selection of line 86 coincides with the plain
ordered filter. -/
theorem maskSelect_map_eq_filter (p : LogRecord → Bool) (c : List LogRecord) :
    maskSelect c (c.map p) = c.filter p := by
  induction c with
  | nil => rfl
  | cons r rs ih => by_cases h : p r <;> simp [maskSelect, List.filter_cons, h, ih]

/-! Demonstration data for filter witnesses. -/

def demoRecord1 : LogRecord :=
  ⟨chars "1.1.1.1", chars "2.2.2.2", chars "TCP", chars "80", chars "443", chars "BLOCKED"⟩

def demoRecord2 : LogRecord :=
  ⟨chars "3.3.3.3", chars "4.4.4.4", chars "UDP", chars "53", chars "53", chars "ALLOWED"⟩

def demoColl : List LogRecord := [demoRecord1, demoRecord2]

/-! The claims. -/

/-- C1: a line containing the six key-value tokens SRC=, DST=, PROTO=,
SPT=, DPT=, ACTION= in that exact order, separated by single spaces, with
nonempty non-whitespace values and digit-only port values, parses to a
record regardless of arbitrary text before or after the occurrence, and
the record's six fields are verbatim substrings of the stripped line
arranged exactly as the pattern skeleton, with the same character classes:
no transformation and no case-folding is applied. -/
theorem parse_extracts_pattern_verbatim
    (pre post v1 v2 v3 p1 p2 v6 : List Char)
    (h1 : v1 ≠ []) (h1' : ∀ c ∈ v1, nonSpace c = true)
    (h2 : v2 ≠ []) (h2' : ∀ c ∈ v2, nonSpace c = true)
    (h3 : v3 ≠ []) (h3' : ∀ c ∈ v3, nonSpace c = true)
    (h4 : p1 ≠ []) (h4' : ∀ c ∈ p1, pyIsDigit c = true)
    (h5 : p2 ≠ []) (h5' : ∀ c ∈ p2, pyIsDigit c = true)
    (h6 : v6 ≠ []) (h6' : ∀ c ∈ v6, nonSpace c = true) :
    ∃ r A B, parse_log_line (pre ++ patCore v1 v2 v3 p1 p2 v6 ++ post) = some r ∧
      pyStrip (pre ++ patCore v1 v2 v3 p1 p2 v6 ++ post) = A ++ patOf r ++ B ∧
      fieldsOK r := by
  obtain ⟨r, hr⟩ := parse_complete pre post v1 v2 v3 p1 p2 v6
    h1 h1' h2 h2' h3 h3' h4 h4' h5 h5' h6 h6'
  obtain ⟨A, B, heq, hok⟩ := parse_sound _ r hr
  exact ⟨r, A, B, hr, heq, hok⟩

/-- C1 witness: the concrete scenario line of the spec. -/
theorem parse_extracts_pattern_verbatim_witness :
    ∃ r A B,
      parse_log_line (chars "Jan 1 00:00:00 kernel: " ++
        patCore (chars "192.168.1.5") (chars "10.0.0.1") (chars "TCP")
          (chars "443") (chars "51515") (chars "BLOCKED") ++ []) = some r ∧
      pyStrip (chars "Jan 1 00:00:00 kernel: " ++
        patCore (chars "192.168.1.5") (chars "10.0.0.1") (chars "TCP")
          (chars "443") (chars "51515") (chars "BLOCKED") ++ []) =
        A ++ patOf r ++ B ∧
      fieldsOK r :=
  parse_extracts_pattern_verbatim
    (chars "Jan 1 00:00:00 kernel: ") [] (chars "192.168.1.5") (chars "10.0.0.1")
    (chars "TCP") (chars "443") (chars "51515") (chars "BLOCKED")
    (by decide) (by decide) (by decide) (by decide) (by decide) (by decide)
    (by decide) (by decide) (by decide) (by decide) (by decide) (by decide)

/-- C2: a line whose stripped text admits no decomposition around a
well-formed occurrence of the pattern — six in-order tokens separated by
single spaces with nonempty non-whitespace values and digit-only ports —
parses to none.  This covers lines missing tokens, lines with the tokens
out of order, and lines with a non-digit inside a port token: greedy
backtracking never rescues such a line by matching a shorter digit run,
because every shorter run leaves a digit where the literal space is
required. -/
theorem parse_noMatch_without_occurrence (line : List Char)
    (hno : ∀ A B (r : LogRecord), pyStrip line = A ++ patOf r ++ B → ¬ fieldsOK r) :
    parse_log_line line = none := by
  cases hp : parse_log_line line with
  | none => rfl
  | some r =>
    obtain ⟨A, B, heq, hok⟩ := parse_sound line r hp
    exact absurd hok (hno A B r heq)

/-- C2 witness: the spec's malformed scenario line has no occurrence of
the pattern (it is shorter than any well-formed occurrence), and parses to
none. -/
theorem parse_noMatch_without_occurrence_witness :
    parse_log_line (chars "malformed garbage text") = none := by
  apply parse_noMatch_without_occurrence
  intro A B r heq hok
  have h40 := patOf_length_ge r hok
  have hlen : (pyStrip (chars "malformed garbage text")).length =
      A.length + ((patOf r).length + B.length) := by
    rw [heq]
    simp [List.length_append]
  have h22 : (pyStrip (chars "malformed garbage text")).length = 22 := by decide
  omega

/-- C3: the aggregation loop visits the lines once, in order, and produces
exactly the records of the parseable lines in the relative order of their
source lines: it equals the in-order filterMap of the parser, and its
length is the count of lines on which the parser succeeds.  No
deduplication, sorting or reordering happens. -/
theorem analyze_loop_in_order (lines : List (List Char)) :
    analyzeLogsLoop [] lines = lines.filterMap parse_log_line ∧
    (analyzeLogsLoop [] lines).length =
      lines.countP (fun l => (parse_log_line l).isSome) := by
  have h : analyzeLogsLoop [] lines = lines.filterMap parse_log_line := by
    simpa using analyzeLogsLoop_eq lines []
  refine ⟨h, ?_⟩
  rw [h]
  exact length_filterMap_countP parse_log_line lines

/-- C4 counterexample: on the empty input sequence analyze_logs does not
return the empty collection; it returns the absence signal None, because
the empty parsed_data list is falsy in the Python truthiness test. -/
theorem analyze_logs_empty_input_cex : analyze_logs (some []) = none := rfl

/-- C4 (amended): over an empty input, or a readable source all of whose
lines are malformed, the aggregation loop itself raises nothing and
produces the empty list, but analyze_logs then returns the absence signal
None — the same signal as for a missing file — rather than an empty
collection, and the caller reports that no valid log data was found. -/
theorem analyze_logs_all_malformed (lines : List (List Char))
    (h : ∀ l ∈ lines, parse_log_line l = none) :
    analyzeLogsLoop [] lines = [] ∧ analyze_logs (some lines) = none := by
  have hfm : lines.filterMap parse_log_line = [] := by
    rw [List.filterMap_eq_nil_iff]
    exact h
  have hloop : analyzeLogsLoop [] lines = [] := by
    have he := analyzeLogsLoop_eq lines []
    simpa [hfm] using he
  exact ⟨hloop, by simp [analyze_logs, hloop]⟩

/-- C4 witness: a readable source with one malformed line. -/
theorem analyze_logs_all_malformed_witness :
    analyzeLogsLoop [] [chars "nonsense line"] = [] ∧
      analyze_logs (some [chars "nonsense line"]) = none :=
  analyze_logs_all_malformed [chars "nonsense line"] (by decide)

/-- C5 counterexample: a readable source (not the missing-file case) whose
single line is malformed also makes analyze_logs return the absence
signal None, so an unavailable source is not the only condition under
which aggregation fails to produce a collection. -/
theorem analyze_logs_readable_source_none_cex :
    analyze_logs (some [chars "not a log line"]) = none ∧
      (some [chars "not a log line"] : Option (List (List Char))) ≠ none := by
  constructor
  · decide
  · simp

/-- C5 (amended): when the line source cannot be opened analyze_logs
returns the absence signal None without raising; however this is not the
only absence condition: for a readable source, analyze_logs returns None
exactly when no line parses, and otherwise returns the collection. -/
theorem analyze_logs_absence_conditions :
    analyze_logs none = none ∧
      ∀ lines, (analyze_logs (some lines) = none ↔
        lines.filterMap parse_log_line = []) := by
  refine ⟨rfl, fun lines => ?_⟩
  have hloop := analyzeLogsLoop_eq lines []
  simp only [List.nil_append] at hloop
  by_cases h : lines.filterMap parse_log_line = []
  · simp [analyze_logs, hloop, h]
  · simp [analyze_logs, hloop, h]

/-- C6: filterByField returns an ordered subcollection: its size is at
most the original size, every retained record's named field equals the
given value exactly (soundness), every record of the original whose named
field equals the value is retained (completeness), the retained records
keep their original relative order (the result is a sublist of the
original), and an empty collection, or a value matching zero records,
yields an empty collection rather than an error. -/
theorem filterByField_sound_complete (c : List LogRecord) (f : FieldName) (v : List Char) :
    (filterByField c f v).length ≤ c.length ∧
    (∀ r ∈ filterByField c f v, getField r f = v) ∧
    (∀ r ∈ c, getField r f = v → r ∈ filterByField c f v) ∧
    List.Sublist (filterByField c f v) c ∧
    filterByField ([] : List LogRecord) f v = [] ∧
    ((∀ r ∈ c, getField r f ≠ v) → filterByField c f v = []) := by
  refine ⟨List.length_filter_le _ c, ?_, ?_, List.filter_sublist c, rfl, ?_⟩
  · intro r hr
    have hb := List.of_mem_filter hr
    simpa using hb
  · intro r hr hv
    exact List.mem_filter.mpr ⟨hr, by simpa using hv⟩
  · intro hall
    rw [filterByField, List.filter_eq_nil_iff]
    intro a ha
    simpa using hall a ha

/-- C6 witness: the BLOCKED filter on a two-record collection. -/
theorem filterByField_sound_complete_witness :
    (filterByField demoColl .action (chars "BLOCKED")).length ≤ demoColl.length :=
  (filterByField_sound_complete demoColl .action (chars "BLOCKED")).1

/-- C7: filterByField is idempotent: filtering an already-filtered
collection by the same field and value returns it unchanged. -/
theorem filterByField_idempotent (c : List LogRecord) (f : FieldName) (v : List Char) :
    filterByField (filterByField c f v) f v = filterByField c f v := by
  simp [filterByField, List.filter_filter]

/-- C8: the filter of line 86 is a pure, non-mutating projection: in the
state-passing rendering of main, computing blocked_traffic leaves the
log_data binding exactly as it was, and the value computed by the pandas
boolean-mask selection is the plain ordered filter of the source
collection, built as a new list. -/
theorem filterStep_preserves_source (s : MainState) :
    (filterStep s).log_data = s.log_data ∧
    (filterStep s).blocked_traffic =
      some (filterByField s.log_data .action (chars "BLOCKED")) := by
  refine ⟨rfl, ?_⟩
  show some (maskSelect s.log_data (boolMask s.log_data .action (chars "BLOCKED"))) = _
  rw [boolMask, maskSelect_map_eq_filter]
  rfl

/-- C9: parse_log_line is total: on every input it returns either a record
or none, and no third outcome exists.  Totality and
exception-freedom hold by construction of the embedding: the parser is a
structurally recursive function into Option. -/
theorem parse_total_dichotomy (line : List Char) :
    (∃ r, parse_log_line line = some r) ∨ parse_log_line line = none := by
  cases h : parse_log_line line with
  | none => exact Or.inr rfl
  | some r => exact Or.inl ⟨r, rfl⟩

/-- C10: re.search is leftmost: if the pattern matches at position i of
the stripped line and fails at every earlier position, parse_log_line
returns exactly the record captured at position i; later occurrences do
not influence the result. -/
theorem parse_leftmost_occurrence (line : List Char) (i : Nat) (r : LogRecord)
    (h : matchAt ((pyStrip line).drop i) = some r)
    (hmin : ∀ j, j < i → matchAt ((pyStrip line).drop j) = none) :
    parse_log_line line = some r := by
  rw [parse_log_line]
  exact reSearch_leftmost i (pyStrip line) r h hmin

/-- C10 witness: a line with two occurrences of the pattern; the fields of
the first (leftmost) occurrence are returned, not those of the second. -/
theorem parse_leftmost_occurrence_witness :
    parse_log_line (chars "SRC=a DST=b PROTO=t SPT=1 DPT=2 ACTION=X SRC=c DST=d PROTO=u SPT=3 DPT=4 ACTION=Y") =
      some ⟨chars "a", chars "b", chars "t", chars "1", chars "2", chars "X"⟩ :=
  parse_leftmost_occurrence _ 0 _ (by decide)
    (fun j hj => absurd hj (Nat.not_lt_zero j))
